import Mathlib

/-!
Verification of the tensor core of the MIT repository against its design
specification.  The Rust sources `src/tensor/creation.rs`,
`src/tensor/broadcast.rs` and `src/tensor/mod.rs` are shallowly embedded
below: `Vec<T>` becomes `List`, `usize` becomes `Nat`, fallible Rust code
returns `Except`/`Option`, and a Rust computation that may hit an
out-of-bounds slice index (a panic) is wrapped in `RunResult`.
-/

/-- Outcome of running a piece of Rust code that may panic: either the code
panics (an out-of-bounds `v[i]` slice access) or it returns a value. -/
inductive RunResult (α : Type u) where
  | panics : RunResult α
  | ok : α → RunResult α
deriving DecidableEq, Repr

/-- The `TensorError` enum of `src/tensor/mod.rs` (lines 216-240). -/
inductive TensorError where
  | InvalidShape (expected got : List Nat)
  | InvalidDataLength (expected got : Nat)
  | InvalidOperation (op reason : String)
  | InvalidAxis (axis : Nat) (shape : List Nat)
  | MatrixMultiplicationError (left_shape right_shape : List Nat)
  | EmptyTensor
deriving DecidableEq, Repr

/-- Modelled from the spec: the crate-root error wrapper `MlError` is not
under `src/`; per §7 every fallible operation returns a result carrying a
`TensorError` kind, and the code in `src/` builds errors as
`MlError::TensorError(...)`. -/
inductive MlError where
  | TensorError (err : TensorError)
deriving DecidableEq, Repr

/-- Modelled from the spec: the crate-root alias `MlResult<T>` (not under
`src/`) is the result type carrying an `MlError` on failure. -/
abbrev MlResult (α : Type _) := Except MlError α

/-- The `Tensor<T>` value type of `src/tensor/mod.rs`: a flat row-major data
buffer together with a shape vector.  The gradient-tracking metadata
(`requires_grad`, `grad`, `grad_fn`, and the `power`/`topk`/`matmax`
parameter slots) plays no role in any of the functions verified here, so it
is omitted from the embedding. -/
structure Tensor (α : Type u) where
  data : List α
  shape : List Nat
deriving DecidableEq, Repr

/-- `TensorBase::new` (`src/tensor/creation.rs` lines 5-19):
`shape = vec![data.len(), data[0].len()]` — evaluating `data[0]` panics when
the outer vector is empty — then the rows are flattened in order.  No
validation is performed. -/
def Tensor.new (data : List (List α)) : RunResult (MlResult (Tensor α)) :=
  match data with
  | [] => .panics
  | r0 :: _ =>
    .ok (.ok { data := data.flatten, shape := [data.length, r0.length] })

/-- `TensorBase::from_vec` (`src/tensor/creation.rs` lines 21-40): fails with
`InvalidDataLength` when the flat data length differs from the shape's
product. -/
def Tensor.from_vec (data : List α) (shape : List Nat) : MlResult (Tensor α) :=
  let expected_len : Nat := shape.prod
  if data.length ≠ expected_len then
    .error (.TensorError (.InvalidDataLength expected_len data.length))
  else
    .ok { data := data, shape := shape }

/-- `TensorBase::index` (`src/tensor/creation.rs` lines 78-88): `None` on
arity mismatch, otherwise the Horner fold `acc * dim + i` over the
index/shape pairs. -/
def Tensor.index (t : Tensor α) (indices : List Nat) : Option Nat :=
  if indices.length ≠ t.shape.length then
    none
  else
    some ((indices.zip t.shape).foldl (fun acc p => acc * p.2 + p.1) 0)

/-- `TensorBase::get` (`src/tensor/creation.rs` lines 74-76):
`self.data.get(self.index(indices)?)`. -/
def Tensor.get (t : Tensor α) (indices : List Nat) : Option α :=
  (t.index indices).bind fun i => t.data.get? i

/-- `TensorBase::chk_shape` (`src/tensor/creation.rs` lines 98-106). -/
def Tensor.chk_shape (t other : Tensor α) : MlResult Unit :=
  if t.shape ≠ other.shape then
    .error (.TensorError (.InvalidShape t.shape other.shape))
  else
    .ok ()

/-- `BroadcastLayer::can_broadcast` (`src/tensor/broadcast.rs` lines 4-12). -/
def Tensor.can_broadcast (t other : Tensor α) : Bool :=
  if t.shape.length ≠ other.shape.length then
    false
  else
    (t.shape.zip other.shape).all fun p => p.1 == p.2 || p.1 == 1 || p.2 == 1

/-- `BroadcastLayer::broadcast_shape` (`src/tensor/broadcast.rs` lines
14-20): per-axis maximum over the zipped shapes (`zip` truncates to the
shorter rank). -/
def Tensor.broadcast_shape (t other : Tensor α) : List Nat :=
  (t.shape.zip other.shape).map fun p => max p.1 p.2

/-- The loop body of `calculate_broadcast_indices` (`src/tensor/broadcast.rs`
lines 55-72): iterates over the zipped dimension pairs, threading
`remaining`, the axis counter `i` and the two accumulated flat offsets; the
stride of axis `i` is `shape[i+1..].iter().product().max(1)` over the full
output shape passed in. -/
def Tensor.cbiLoop (shape : List Nat) :
    List (Nat × Nat) → Nat → Nat → Nat → Nat → Nat × Nat
  | [], _, _, self_idx, other_idx => (self_idx, other_idx)
  | (self_dim, other_dim) :: rest, remaining, i, self_idx, other_idx =>
    let stride := max ((shape.drop (i + 1)).prod) 1
    let pos := remaining / stride
    Tensor.cbiLoop shape rest (remaining % stride) (i + 1)
      (self_idx * self_dim + if self_dim == 1 then 0 else pos)
      (other_idx * other_dim + if other_dim == 1 then 0 else pos)

/-- `BroadcastLayer::calculate_broadcast_indices` (`src/tensor/broadcast.rs`
lines 55-72).  The Rust function has return type `Option<(usize, usize)>`
but its body ends in `Some((self_idx, other_idx))` unconditionally. -/
def Tensor.calculate_broadcast_indices (t other : Tensor α) (idx : Nat)
    (shape : List Nat) : Option (Nat × Nat) :=
  some (Tensor.cbiLoop shape (t.shape.zip other.shape) idx 0 0 0)

/-- The `for idx in 0..size` loop of `broadcast_op` (`src/tensor/broadcast.rs`
lines 31-34), processing the given linear output indices in order: a `None`
from `calculate_broadcast_indices` propagates via `?`, and the slice
accesses `self.data[self_idx]` / `other.data[other_idx]` panic when out of
bounds. -/
def Tensor.broadcastLoop (t other : Tensor α) (op : α → α → α)
    (shape : List Nat) : List Nat → RunResult (Option (List α))
  | [] => .ok (some [])
  | idx :: rest =>
    match t.calculate_broadcast_indices other idx shape with
    | none => .ok none
    | some (self_idx, other_idx) =>
      match t.data.get? self_idx, other.data.get? other_idx with
      | some x, some y =>
        match Tensor.broadcastLoop t other op shape rest with
        | .panics => .panics
        | .ok none => .ok none
        | .ok (some l) => .ok (some (op x y :: l))
      | _, _ => .panics

/-- `BroadcastLayer::broadcast_op` (`src/tensor/broadcast.rs` lines 22-37). -/
def Tensor.broadcast_op (t other : Tensor α) (op : α → α → α) :
    RunResult (Option (Tensor α)) :=
  let shape : List Nat := t.broadcast_shape other
  match Tensor.broadcastLoop t other op shape (List.range shape.prod) with
  | .panics => .panics
  | .ok none => .ok none
  | .ok (some data) => .ok (some { data := data, shape := shape })

/-- `BroadcastLayer::into_broadcast_op` (`src/tensor/broadcast.rs` lines
39-53): same body as `broadcast_op`, taking its operands by value. -/
def Tensor.into_broadcast_op (t other : Tensor α) (op : α → α → α) :
    RunResult (Option (Tensor α)) :=
  let shape : List Nat := t.broadcast_shape other
  match Tensor.broadcastLoop t other op shape (List.range shape.prod) with
  | .panics => .panics
  | .ok none => .ok none
  | .ok (some data) => .ok (some { data := data, shape := shape })

/-- Row-major flat offset as the spec words it for `index`:
`offset = Σ indices[i] · Π(shape[i+1..])`. -/
def rowMajorOffset : List Nat → List Nat → Nat
  | i :: irest, _d :: drest => i * drest.prod + rowMajorOffset irest drest
  | _, _ => 0

/-- Per-operand flat offset as the spec words it for `broadcast_op`: the
output index `idx` is decomposed into per-axis coordinates using the output
shape's strides (`(idx / Π outShape[i+1..]) % outShape[i]`), the operand's
coordinate on an axis is `0` if the operand's size there is `1` and the
output coordinate otherwise, and the operand's flat offset accumulates with
the operand's own strides (`Π opShape[i+1..]`). -/
def specOffset : List Nat → List Nat → Nat → Nat
  | opd :: opRest, outd :: outRest, idx =>
    (if opd = 1 then 0 else (idx / outRest.prod) % outd) * opRest.prod
      + specOffset opRest outRest idx
  | _, _, _ => 0

/-- `PartialEq for Tensor<f32>` (`src/tensor/mod.rs` lines 302-311):
`self.data == other.data && self.shape == other.shape`.  The element type
`f32` is modelled by `Int`, a stand-in for the non-NaN, exactly-representable
fragment of `f32` on which IEEE-754 comparison coincides with the total
numeric order. -/
def tensor_eq (a b : Tensor Int) : Bool :=
  a.data == b.data && a.shape == b.shape

/-- `f32::partial_cmp` on the modelled fragment: Rust returns `Less`,
`Equal` or `Greater` by the three comparisons and `None` only for NaN
(unreachable in the fragment). -/
def f32cmp (x y : Int) : Option Ordering :=
  if x < y then some .lt
  else if x = y then some .eq
  else if y < x then some .gt
  else none

/-- `<[f32] as PartialOrd>::partial_cmp`: lexicographic comparison,
returning the first non-`Equal` element comparison and otherwise comparing
lengths. -/
def slice_cmp : List Int → List Int → Option Ordering
  | [], [] => some .eq
  | [], _ :: _ => some .lt
  | _ :: _, [] => some .gt
  | x :: xs, y :: ys =>
    match f32cmp x y with
    | some .eq => slice_cmp xs ys
    | r => r

/-- `PartialOrd for Tensor<f32>` (`src/tensor/mod.rs` lines 313-317):
`self.data.partial_cmp(&other.data)` — the shape is not consulted. -/
def tensor_pcmp (a b : Tensor Int) : Option Ordering :=
  slice_cmp a.data b.data

/-- `Ord for Tensor<f32>` (`src/tensor/mod.rs` lines 319-323):
`self.partial_cmp(other).unwrap_or(Ordering::Equal)`. -/
def tensor_cmp (a b : Tensor Int) : Ordering :=
  (tensor_pcmp a b).getD .eq

/-- Recursive form of the broadcast shape: per-axis maximum, truncated to
the shorter list (used to reason about `broadcast_shape` by induction). -/
def maxShape : List Nat → List Nat → List Nat
  | a :: as, b :: bs => max a b :: maxShape as bs
  | _, _ => []

/-- Reformulation of `Tensor.cbiLoop` that carries the tail of the output
shape instead of the axis counter `i`. -/
def cbiAux : List (Nat × Nat) → List Nat → Nat → Nat → Nat → Nat × Nat
  | [], _, _, self_idx, other_idx => (self_idx, other_idx)
  | (self_dim, other_dim) :: rest, outRest, remaining, self_idx, other_idx =>
    let stride := max outRest.prod 1
    let pos := remaining / stride
    cbiAux rest (outRest.drop 1) (remaining % stride)
      (self_idx * self_dim + if self_dim == 1 then 0 else pos)
      (other_idx * other_dim + if other_dim == 1 then 0 else pos)

section HelperLemmas

/-- The Horner fold used by `Tensor.index` computes the row-major offset of
the spec, relative to any accumulator. -/
lemma horner_foldl (is : List Nat) :
    ∀ (ds : List Nat) (s : Nat), is.length = ds.length →
      (is.zip ds).foldl (fun acc p => acc * p.2 + p.1) s
        = s * ds.prod + rowMajorOffset is ds := by
  induction is with
  | nil =>
    intro ds s h
    cases ds with
    | nil => simp [rowMajorOffset]
    | cons d ds => simp at h
  | cons i is ih =>
    intro ds s h
    cases ds with
    | nil => simp at h
    | cons d ds =>
      simp only [List.zip_cons_cons, List.foldl_cons]
      rw [ih ds _ (by simpa using h)]
      simp only [rowMajorOffset, List.prod_cons]
      ring

/-- Sum of the row lengths of a list of equal-length rows. -/
lemma sum_map_length_const {α : Type u} (c : Nat) :
    ∀ (l : List (List α)), (∀ r ∈ l, r.length = c) →
      (l.map List.length).sum = l.length * c := by
  intro l
  induction l with
  | nil => intro _; simp
  | cons r rest ih =>
    intro h
    simp only [List.map_cons, List.sum_cons, List.length_cons]
    rw [h r (by simp), ih (fun r hr => h r (by simp [hr]))]
    ring

/-- Per-axis broadcast compatibility is a symmetric test. -/
lemma zip_all_compat_symm : ∀ (x y : List Nat),
    ((x.zip y).all fun p => p.1 == p.2 || p.1 == 1 || p.2 == 1)
      = ((y.zip x).all fun p => p.1 == p.2 || p.1 == 1 || p.2 == 1) := by
  intro x
  induction x with
  | nil => intro y; cases y <;> rfl
  | cons a x ih =>
    intro y
    cases y with
    | nil => rfl
    | cons b y =>
      simp only [List.zip_cons_cons, List.all_cons, ih y]
      congr 1
      rw [Bool.eq_iff_iff]
      simp only [Bool.or_eq_true, beq_iff_eq]
      omega

/-- The per-axis maximum over zipped shapes is symmetric. -/
lemma zip_map_max_symm : ∀ (x y : List Nat),
    (x.zip y).map (fun p => max p.1 p.2)
      = (y.zip x).map (fun p => max p.1 p.2) := by
  intro x
  induction x with
  | nil => intro y; cases y <;> rfl
  | cons a x ih =>
    intro y
    cases y with
    | nil => rfl
    | cons b y =>
      simp only [List.zip_cons_cons, List.map_cons, ih y]
      rw [Nat.max_comm]

/-- Comparing a float slice with itself yields `Equal` on the modelled
fragment. -/
lemma slice_cmp_refl : ∀ l : List Int, slice_cmp l l = some .eq := by
  intro l
  induction l with
  | nil => rfl
  | cons x xs ih => simp [slice_cmp, f32cmp, ih]

/-- The main loop of `broadcast_op` either panics on an out-of-bounds data
access or produces a full list of results; the `None` early return is dead
code because `calculate_broadcast_indices` always succeeds. -/
lemma broadcastLoop_panics_or_some {α : Type u} (a b : Tensor α)
    (f : α → α → α) (shape : List Nat) :
    ∀ idxs : List Nat,
      Tensor.broadcastLoop a b f shape idxs = .panics ∨
        ∃ l, Tensor.broadcastLoop a b f shape idxs = .ok (some l) := by
  intro idxs
  induction idxs with
  | nil => exact Or.inr ⟨[], rfl⟩
  | cons idx rest ih =>
    simp only [Tensor.broadcastLoop, Tensor.calculate_broadcast_indices]
    split
    · rcases ih with h | ⟨l, hl⟩
      · rw [h]; exact Or.inl rfl
      · rw [hl]
        exact Or.inr ⟨_, rfl⟩
    · exact Or.inl rfl

end HelperLemmas

/-- Claim C5: `index(indices)` is `None` exactly when the arity differs from
the rank, otherwise it is the row-major offset `Σ indices[i] · Π(shape[i+1..])`;
`get(indices)` returns the data element at that offset whenever the offset
is inside the data buffer. -/
theorem index_get_spec {α : Type u} (t : Tensor α) (indices : List Nat) :
    (t.index indices = none ↔ indices.length ≠ t.shape.length) ∧
    (indices.length = t.shape.length →
      t.index indices = some (rowMajorOffset indices t.shape)) ∧
    (∀ off, t.index indices = some off → off < t.data.length →
      ∃ x, t.data.get? off = some x ∧ t.get indices = some x) := by
  refine ⟨?_, ?_, ?_⟩
  · by_cases h : indices.length = t.shape.length <;> simp [Tensor.index, h]
  · intro h
    simp only [Tensor.index, h, ne_eq, not_true_eq_false, if_neg, ite_false]
    rw [horner_foldl indices t.shape 0 h]
    simp
  · intro off hidx hlt
    exact ⟨t.data.get ⟨off, hlt⟩, List.get?_eq_get hlt, by
      simp [Tensor.get, hidx, List.get?_eq_get hlt]⟩

/-- Witness for C5 at the tensor `[[1,2,3],[4,5,6]]` and index `[1,2]`. -/
theorem index_get_spec_witness :
    Tensor.index (⟨[1,2,3,4,5,6], [2,3]⟩ : Tensor Int) [1,2] = some 5 ∧
    Tensor.get (⟨[1,2,3,4,5,6], [2,3]⟩ : Tensor Int) [1,2] = some 6 := by
  have h := index_get_spec (⟨[1,2,3,4,5,6], [2,3]⟩ : Tensor Int) [1,2]
  have hidx : Tensor.index (⟨[1,2,3,4,5,6], [2,3]⟩ : Tensor Int) [1,2] = some 5 := by
    have := h.2.1 (by decide)
    simpa using this
  refine ⟨hidx, ?_⟩
  obtain ⟨x, hx, hget⟩ := h.2.2 5 hidx (by decide)
  have hx6 : x = 6 := by
    have h2 : ([1,2,3,4,5,6] : List Int).get? 5 = some 6 := by decide
    exact Option.some.inj (hx.symm.trans h2)
  rw [hx6] at hget
  exact hget

/-- Claim C6: the offset formula performs no per-component bounds check: on
the tensor `[[1,2],[3,4]]` (shape `[2,2]`) the index `[0,2]` — whose second
component `2` is not below the axis size `2` — resolves to the same flat
offset as the in-range index `[1,0]`, and `get` silently returns that other
cell's element `3`. -/
theorem index_out_of_range_aliases :
    Tensor.get (⟨[1,2,3,4], [2,2]⟩ : Tensor Int) [0,2] = some 3 ∧
    Tensor.get (⟨[1,2,3,4], [2,2]⟩ : Tensor Int) [1,0] = some 3 ∧
    Tensor.index (⟨[1,2,3,4], [2,2]⟩ : Tensor Int) [0,2]
      = Tensor.index (⟨[1,2,3,4], [2,2]⟩ : Tensor Int) [1,0] ∧
    (⟨[1,2,3,4], [2,2]⟩ : Tensor Int).shape.get? 1 = some 2 ∧ ¬ (2 < 2) := by
  decide

/-- Claim C8: `chk_shape` succeeds exactly on equal shapes and otherwise
fails with `InvalidShape` carrying the caller's shape as `expected` and the
argument's shape as `got`. -/
theorem chk_shape_spec {α : Type u} (a b : Tensor α) :
    (a.shape = b.shape → a.chk_shape b = .ok ()) ∧
    (a.shape ≠ b.shape →
      a.chk_shape b = .error (.TensorError (.InvalidShape a.shape b.shape))) := by
  constructor <;> intro h <;> simp [Tensor.chk_shape, h]

/-- Witness for C8 on shapes `[1,2]` vs `[1,2]` and `[1,2]` vs `[1,3]`. -/
theorem chk_shape_spec_witness :
    Tensor.chk_shape (⟨[1,2], [1,2]⟩ : Tensor Int) ⟨[3,4], [1,2]⟩ = .ok () ∧
    Tensor.chk_shape (⟨[1,2], [1,2]⟩ : Tensor Int) ⟨[3,4,5], [1,3]⟩
      = .error (.TensorError (.InvalidShape [1,2] [1,3])) :=
  ⟨(chk_shape_spec (⟨[1,2], [1,2]⟩ : Tensor Int) ⟨[3,4], [1,2]⟩).1 rfl,
   (chk_shape_spec (⟨[1,2], [1,2]⟩ : Tensor Int) ⟨[3,4,5], [1,3]⟩).2 (by decide)⟩

/-- Claim C9: broadcast compatibility is symmetric, and for equal-rank
tensors the broadcast shape is symmetric. -/
theorem broadcast_symmetric {α : Type u} (a b : Tensor α) :
    a.can_broadcast b = b.can_broadcast a ∧
    (a.shape.length = b.shape.length →
      a.broadcast_shape b = b.broadcast_shape a) := by
  constructor
  · by_cases h : a.shape.length = b.shape.length
    · simp [Tensor.can_broadcast, h, zip_all_compat_symm a.shape b.shape]
    · have h' : ¬ b.shape.length = a.shape.length := fun hba => h hba.symm
      simp [Tensor.can_broadcast, h, h']
  · intro _
    simp [Tensor.broadcast_shape, zip_map_max_symm a.shape b.shape]

/-- Witness for C9 on the equal-rank shapes `[1,2]` and `[3,2]`. -/
theorem broadcast_symmetric_witness :
    Tensor.can_broadcast (⟨[1,2], [1,2]⟩ : Tensor Int) ⟨[1,2,3,4,5,6], [3,2]⟩
      = Tensor.can_broadcast (⟨[1,2,3,4,5,6], [3,2]⟩ : Tensor Int) ⟨[1,2], [1,2]⟩ ∧
    Tensor.broadcast_shape (⟨[1,2], [1,2]⟩ : Tensor Int) ⟨[1,2,3,4,5,6], [3,2]⟩
      = Tensor.broadcast_shape (⟨[1,2,3,4,5,6], [3,2]⟩ : Tensor Int) ⟨[1,2], [1,2]⟩ :=
  ⟨(broadcast_symmetric (⟨[1,2], [1,2]⟩ : Tensor Int) ⟨[1,2,3,4,5,6], [3,2]⟩).1,
   (broadcast_symmetric (⟨[1,2], [1,2]⟩ : Tensor Int) ⟨[1,2,3,4,5,6], [3,2]⟩).2 rfl⟩

/-- Counterexample to claim C7 as stated: the tensors `⟨[1,2],[1,2]⟩` and
`⟨[1,2],[2,1]⟩` have equal data but different shapes, yet `cmp` compares
them `Equal` — the ordering does not consult the shape at all (while `eq`
does), so equal-data tensors with different shapes are not distinguished. -/
theorem tensor_cmp_ignores_shape_counterexample :
    tensor_eq ⟨[1,2], [1,2]⟩ ⟨[1,2], [2,1]⟩ = false ∧
    tensor_cmp ⟨[1,2], [1,2]⟩ ⟨[1,2], [2,1]⟩ = .eq ∧
    (⟨[1,2], [1,2]⟩ : Tensor Int).data = (⟨[1,2], [2,1]⟩ : Tensor Int).data ∧
    (⟨[1,2], [1,2]⟩ : Tensor Int).shape ≠ (⟨[1,2], [2,1]⟩ : Tensor Int).shape := by
  decide

/-- Claim C7 amended: equality on `f32` tensors compares data and then
shape, but `partial_cmp`/`cmp` compare only the data sequence
lexicographically and ignore the shape entirely; tensors with equal data
compare `Equal` under `cmp` whatever their shapes. -/
theorem tensor_ord_data_only :
    (∀ a b : Tensor Int, tensor_eq a b = true ↔ a.data = b.data ∧ a.shape = b.shape) ∧
    (∀ a b a2 b2 : Tensor Int, a.data = a2.data → b.data = b2.data →
      tensor_pcmp a b = tensor_pcmp a2 b2) ∧
    (∀ a b : Tensor Int, a.data = b.data → tensor_cmp a b = .eq) := by
  refine ⟨?_, ?_, ?_⟩
  · intro a b
    simp [tensor_eq, Bool.and_eq_true]
  · intro a b a2 b2 ha hb
    simp only [tensor_pcmp, ha, hb]
  · intro a b h
    simp only [tensor_cmp, tensor_pcmp, h, slice_cmp_refl b.data, Option.getD_some]

/-- Witness for the amended C7 on concrete tensors with equal data and
different shapes. -/
theorem tensor_ord_data_only_witness :
    tensor_pcmp ⟨[3,4], [2,1]⟩ ⟨[5], [1]⟩ = tensor_pcmp ⟨[3,4], [1,2]⟩ ⟨[5], [1,1]⟩ ∧
    tensor_cmp ⟨[3,4], [2,1]⟩ ⟨[3,4], [1,2]⟩ = .eq :=
  ⟨tensor_ord_data_only.2.1 ⟨[3,4], [2,1]⟩ ⟨[5], [1]⟩ ⟨[3,4], [1,2]⟩ ⟨[5], [1,1]⟩ rfl rfl,
   tensor_ord_data_only.2.2 ⟨[3,4], [2,1]⟩ ⟨[3,4], [1,2]⟩ rfl⟩

/-- Counterexample to claim C2 as stated: `new` performs no validation of
the row lengths, so the ragged input `[[1],[2,3]]` constructs — with no
error — a tensor whose data length `3` differs from the product `2` of its
shape `[2,1]`. -/
theorem new_ragged_rows_counterexample :
    Tensor.new ([[1],[2,3]] : List (List Int)) = .ok (.ok ⟨[1,2,3], [2,1]⟩) ∧
    (⟨[1,2,3], [2,1]⟩ : Tensor Int).data.length ≠ (⟨[1,2,3], [2,1]⟩ : Tensor Int).shape.prod :=
  ⟨rfl, by decide⟩

/-- Claim C2 amended: `from_vec` enforces `data.len() == product(shape)`,
failing with `InvalidDataLength` on any mismatch; `new` validates nothing:
whenever every row has the first row's length the constructed tensor
satisfies the invariant, but ragged rows are accepted with `Ok` and can
break it. -/
theorem construction_size_invariant (α : Type u) :
    (∀ (data : List α) (shape : List Nat) (t : Tensor α),
      Tensor.from_vec data shape = .ok t → t.data.length = t.shape.prod) ∧
    (∀ (data : List α) (shape : List Nat),
      data.length ≠ shape.prod →
      Tensor.from_vec data shape
        = .error (.TensorError (.InvalidDataLength shape.prod data.length))) ∧
    (∀ (r0 : List α) (rest : List (List α)),
      (∀ r ∈ rest, r.length = r0.length) →
      ∃ t, Tensor.new (r0 :: rest) = .ok (.ok t) ∧ t.data.length = t.shape.prod) := by
  refine ⟨?_, ?_, ?_⟩
  · intro data shape t h
    by_cases hc : data.length = shape.prod
    · simp only [Tensor.from_vec, hc, ne_eq, not_true_eq_false, ite_false] at h
      cases h
      exact hc
    · simp [Tensor.from_vec, hc] at h
  · intro data shape h
    simp [Tensor.from_vec, h]
  · intro r0 rest hall
    refine ⟨_, rfl, ?_⟩
    simp only [List.length_flatten, List.map_cons, List.sum_cons,
      List.length_cons, List.prod_cons, List.prod_nil]
    rw [sum_map_length_const r0.length rest hall]
    ring

/-- Witness for the amended C2: `from_vec` rejects a length mismatch, and
`new` on equal-length rows satisfies the size invariant. -/
theorem construction_size_invariant_witness :
    Tensor.from_vec ([1,2] : List Int) [1,3]
      = .error (.TensorError (.InvalidDataLength 3 2)) ∧
    ∃ t, Tensor.new ([[1,2],[3,4]] : List (List Int)) = .ok (.ok t) ∧
      t.data.length = t.shape.prod :=
  ⟨by simpa using (construction_size_invariant Int).2.1 [1,2] [1,3] (by decide),
   (construction_size_invariant Int).2.2 [1,2] [[3,4]] (by decide)⟩

/-- Counterexample to claim C3 as stated: on operands of ranks `2` and `1`
`broadcast_op` does not yield a failure value — `zip` silently truncates to
the shorter rank and a fabricated tensor of shape `[2]` is returned. -/
theorem broadcast_op_rank_mismatch_counterexample :
    (⟨[1,2,3,4], [2,2]⟩ : Tensor Int).shape.length
      ≠ (⟨[10,20], [2]⟩ : Tensor Int).shape.length ∧
    Tensor.broadcast_op (⟨[1,2,3,4], [2,2]⟩ : Tensor Int) ⟨[10,20], [2]⟩ (· + ·)
      = .ok (some ⟨[11,22], [2]⟩) := by
  decide

/-- Claim C3 amended: `calculate_broadcast_indices` never fails (its `Option`
is always `Some`), so `broadcast_op` never returns its explicit failure
value `None`: on any input — rank mismatch included — it either returns a
(possibly rank-truncated, fabricated) tensor or panics on an out-of-bounds
data access. -/
theorem broadcast_no_explicit_failure (α : Type u) :
    (∀ (a b : Tensor α) (idx : Nat) (shape : List Nat),
      ∃ p, a.calculate_broadcast_indices b idx shape = some p) ∧
    (∀ (a b : Tensor α) (f : α → α → α),
      a.broadcast_op b f = .panics ∨ ∃ t, a.broadcast_op b f = .ok (some t)) := by
  constructor
  · intro a b idx shape
    exact ⟨_, rfl⟩
  · intro a b f
    rcases broadcastLoop_panics_or_some a b f (a.broadcast_shape b)
        (List.range (a.broadcast_shape b).prod) with h | ⟨l, hl⟩
    · refine Or.inl ?_
      simp only [Tensor.broadcast_op]
      rw [h]
    · refine Or.inr ⟨⟨l, a.broadcast_shape b⟩, ?_⟩
      simp only [Tensor.broadcast_op]
      rw [hl]

/-- Witness for the amended C3 at a concrete rank-mismatched pair. -/
theorem broadcast_no_explicit_failure_witness :
    (∃ p, Tensor.calculate_broadcast_indices (⟨[1,2,3,4], [2,2]⟩ : Tensor Int)
      ⟨[10,20], [2]⟩ 0 [2] = some p) ∧
    (Tensor.broadcast_op (⟨[1,2,3,4], [2,2]⟩ : Tensor Int) ⟨[10,20], [2]⟩ (· + ·)
        = .panics ∨
      ∃ t, Tensor.broadcast_op (⟨[1,2,3,4], [2,2]⟩ : Tensor Int) ⟨[10,20], [2]⟩ (· + ·)
        = .ok (some t)) :=
  ⟨(broadcast_no_explicit_failure Int).1 ⟨[1,2,3,4], [2,2]⟩ ⟨[10,20], [2]⟩ 0 [2],
   (broadcast_no_explicit_failure Int).2 ⟨[1,2,3,4], [2,2]⟩ ⟨[10,20], [2]⟩ (· + ·)⟩

/-- Claim C4, divergence at the failing input: `new` with no rows evaluates
`data[0]` on the empty outer vector and panics; the declared
`TensorError::EmptyTensor` variant is never produced. -/
theorem new_empty_panics : Tensor.new ([] : List (List Int)) = .panics := rfl

section BroadcastMachinery

lemma maxShape_eq : ∀ x y : List Nat,
    maxShape x y = (x.zip y).map fun p => max p.1 p.2 := by
  intro x
  induction x with
  | nil => intro y; cases y <;> rfl
  | cons a as ih =>
    intro y
    cases y with
    | nil => rfl
    | cons b bs => simp [maxShape, ih bs]

lemma broadcast_shape_eq_maxShape {α : Type u} (a b : Tensor α) :
    a.broadcast_shape b = maxShape a.shape b.shape := by
  rw [Tensor.broadcast_shape, maxShape_eq]

lemma maxShape_comm : ∀ x y : List Nat, maxShape x y = maxShape y x := by
  intro x
  induction x with
  | nil => intro y; cases y <;> rfl
  | cons a as ih =>
    intro y
    cases y with
    | nil => rfl
    | cons b bs => simp [maxShape, ih bs, Nat.max_comm]

lemma mem_zip_swap : ∀ (x y : List Nat) (p : Nat × Nat),
    p ∈ x.zip y → (p.2, p.1) ∈ y.zip x := by
  intro x
  induction x with
  | nil => intro y p h; cases y <;> simp at h
  | cons a as ih =>
    intro y p h
    cases y with
    | nil => simp at h
    | cons b bs =>
      simp only [List.zip_cons_cons, List.mem_cons] at h ⊢
      rcases h with h | h
      · subst h; exact Or.inl rfl
      · exact Or.inr (ih bs p h)

lemma cbiLoop_eq_cbiAux (shape : List Nat) :
    ∀ (l : List (Nat × Nat)) (i rem s o : Nat),
      Tensor.cbiLoop shape l rem i s o = cbiAux l (shape.drop (i + 1)) rem s o := by
  intro l
  induction l with
  | nil => intro i rem s o; rfl
  | cons p rest ih =>
    intro i rem s o
    obtain ⟨sd, od⟩ := p
    simp only [Tensor.cbiLoop, cbiAux]
    rw [ih (i + 1), List.drop_drop]

/-- Dividing by an inner stride and reducing modulo the axis size is
unchanged by first reducing modulo any multiple of `o * T`. -/
lemma mod_div_mod_of_dvd (x o T P : Nat) (h : (o * T) ∣ P) :
    (x % P) / T % o = x / T % o := by
  rcases h with ⟨m, hm⟩
  by_cases hP : P = 0
  · rw [hP, Nat.mod_zero]
  · have hT : 0 < T := by
      rcases Nat.eq_zero_or_pos T with h0 | h0
      · exact absurd (by rw [hm, h0]; ring) hP
      · exact h0
    conv_rhs => rw [← Nat.div_add_mod x P]
    have hsplit : P * (x / P) + x % P = x % P + (o * (m * (x / P))) * T := by
      rw [hm]; ring
    rw [hsplit, Nat.add_mul_div_right _ _ hT, Nat.add_mul_mod_self_left]

/-- The spec-side operand offset only depends on the output index modulo
any multiple of the output size. -/
lemma specOffset_mod : ∀ (opS outS : List Nat) (x P : Nat), outS.prod ∣ P →
    specOffset opS outS (x % P) = specOffset opS outS x := by
  intro opS
  induction opS with
  | nil => intro outS x P _; rfl
  | cons od opRest ih =>
    intro outS x P h
    cases outS with
    | nil => rfl
    | cons outd outRest =>
      rw [List.prod_cons] at h
      simp only [specOffset]
      rw [mod_div_mod_of_dvd x outd outRest.prod P h,
        ih outRest x P (dvd_trans (dvd_mul_left outRest.prod outd) h)]

/-- Characterization of `cbiAux` on equal-rank shape lists: starting from
accumulators `s`/`o` it computes exactly the spec-side per-operand offsets,
Horner-shifted by the accumulators. -/
lemma cbiAux_spec : ∀ (aS bS : List Nat) (rem s o : Nat),
    aS.length = bS.length →
    rem < (maxShape aS bS).prod →
    cbiAux (aS.zip bS) ((maxShape aS bS).drop 1) rem s o
      = (s * aS.prod + specOffset aS (maxShape aS bS) rem,
         o * bS.prod + specOffset bS (maxShape aS bS) rem) := by
  intro aS
  induction aS with
  | nil =>
    intro bS rem s o hlen hrem
    cases bS with
    | nil =>
      have h0 : rem = 0 := Nat.lt_one_iff.mp (by simpa [maxShape] using hrem)
      simp [cbiAux, maxShape, specOffset, h0]
    | cons b bs => simp at hlen
  | cons a as ih =>
    intro bS rem s o hlen hrem
    cases bS with
    | nil => simp at hlen
    | cons b bs =>
      have hlen' : as.length = bs.length := by simpa using hlen
      rw [maxShape, List.prod_cons] at hrem
      have hP : 0 < (maxShape as bs).prod := by
        rcases Nat.eq_zero_or_pos (maxShape as bs).prod with h0 | h0
        · rw [h0, Nat.mul_zero] at hrem; exact absurd hrem (Nat.not_lt_zero rem)
        · exact h0
      have hM : 0 < max a b := by
        rcases Nat.eq_zero_or_pos (max a b) with h0 | h0
        · rw [h0, Nat.zero_mul] at hrem; exact absurd hrem (Nat.not_lt_zero rem)
        · exact h0
      have hstride : max (maxShape as bs).prod 1 = (maxShape as bs).prod :=
        Nat.max_eq_left hP
      have hpos : rem / (maxShape as bs).prod < max a b :=
        (Nat.div_lt_iff_lt_mul hP).mpr hrem
      simp only [List.zip_cons_cons, cbiAux, maxShape, List.drop_succ_cons,
        List.drop_zero, hstride]
      have hrec := ih bs (rem % (maxShape as bs).prod)
      simp only [List.zip] at hrec
      rw [hrec _ _ hlen' (Nat.mod_lt _ hP)]
      rw [specOffset_mod as (maxShape as bs) rem _ dvd_rfl,
        specOffset_mod bs (maxShape as bs) rem _ dvd_rfl]
      simp only [specOffset, List.prod_cons, beq_iff_eq,
        Nat.mod_eq_of_lt hpos]
      rw [Prod.mk.injEq]
      constructor
      · by_cases ha : a = 1 <;> simp [ha] <;> ring
      · by_cases hbb : b = 1 <;> simp [hbb] <;> ring

end BroadcastMachinery

section BroadcastBounds

/-- Extraction of the per-axis compatibility predicate from `can_broadcast`. -/
lemma can_broadcast_compat {α : Type u} (a b : Tensor α)
    (hlen : a.shape.length = b.shape.length)
    (h : a.can_broadcast b = true) :
    ∀ p ∈ a.shape.zip b.shape, p.1 = p.2 ∨ p.1 = 1 ∨ p.2 = 1 := by
  intro p hp
  simp only [Tensor.can_broadcast, hlen, ne_eq, not_true_eq_false, ite_false,
    if_neg, List.all_eq_true] at h
  have h2 := h p hp
  simp only [Bool.or_eq_true, beq_iff_eq] at h2
  tauto

/-- Bound for the spec-side operand offset: under per-axis compatibility and
the zero-for-zero side condition, every resolved operand offset stays below
the operand's own size whenever the output size is positive. -/
lemma specOffset_lt : ∀ (aS bS : List Nat) (idx : Nat),
    aS.length = bS.length →
    (∀ p ∈ aS.zip bS, p.1 = p.2 ∨ p.1 = 1 ∨ p.2 = 1) →
    (∀ p ∈ aS.zip bS, p.1 = 0 ↔ p.2 = 0) →
    0 < (maxShape aS bS).prod →
    specOffset aS (maxShape aS bS) idx < aS.prod := by
  intro aS
  induction aS with
  | nil =>
    intro bS idx _ _ _ _
    simp [specOffset]
  | cons a as ih =>
    intro bS idx hlen hcompat hz hpos
    cases bS with
    | nil => simp at hlen
    | cons b bs =>
      have hlen' : as.length = bs.length := by simpa using hlen
      have hcompat' : ∀ p ∈ as.zip bs, p.1 = p.2 ∨ p.1 = 1 ∨ p.2 = 1 :=
        fun p hp => hcompat p (by simp [List.zip_cons_cons, hp])
      have hz' : ∀ p ∈ as.zip bs, p.1 = 0 ↔ p.2 = 0 :=
        fun p hp => hz p (by simp [List.zip_cons_cons, hp])
      have hhead : a = b ∨ a = 1 ∨ b = 1 :=
        hcompat (a, b) (by simp [List.zip_cons_cons])
      have hzhead : a = 0 ↔ b = 0 :=
        hz (a, b) (by simp [List.zip_cons_cons])
      rw [maxShape, List.prod_cons] at hpos
      have hP : 0 < (maxShape as bs).prod := by
        rcases Nat.eq_zero_or_pos (maxShape as bs).prod with h0 | h0
        · rw [h0, Nat.mul_zero] at hpos; exact absurd hpos (lt_irrefl 0)
        · exact h0
      have htail : specOffset as (maxShape as bs) idx < as.prod :=
        ih bs idx hlen' hcompat' hz' hP
      have hcoord : (if a = 1 then 0 else (idx / (maxShape as bs).prod) % max a b) < a := by
        by_cases ha : a = 1
        · simp [ha]
        · rw [if_neg ha]
          have haM : 0 < max a b := by
            rcases Nat.eq_zero_or_pos (max a b) with h0 | h0
            · rw [h0, Nat.zero_mul] at hpos; exact absurd hpos (lt_irrefl 0)
            · exact h0
          have hab : max a b = a := by
            rcases hhead with h1 | h1 | h1
            · rw [← h1]; exact Nat.max_self a
            · exact absurd h1 ha
            · have ha0 : a ≠ 0 := fun h0 => by
                have hb0 : b = 0 := hzhead.mp h0
                rw [h1] at hb0
                exact one_ne_zero hb0
              rw [h1]
              exact Nat.max_eq_left (Nat.one_le_iff_ne_zero.mpr ha0)
          rw [hab]
          exact Nat.mod_lt _ (hab ▸ haM)
      simp only [maxShape, specOffset, List.prod_cons]
      calc (if a = 1 then 0 else (idx / (maxShape as bs).prod) % max a b) * as.prod
            + specOffset as (maxShape as bs) idx
          < (if a = 1 then 0 else (idx / (maxShape as bs).prod) % max a b) * as.prod
            + as.prod := Nat.add_lt_add_left htail _
        _ = ((if a = 1 then 0 else (idx / (maxShape as bs).prod) % max a b) + 1) * as.prod := by
            ring
        _ ≤ a * as.prod := Nat.mul_le_mul_right _ (Nat.succ_le_of_lt hcoord)

/-- The loop of `broadcast_op` succeeds and produces exactly the spec-side
elements when every processed index resolves to in-bounds operand offsets. -/
lemma broadcastLoop_ok {α : Type u} (a b : Tensor α) (f : α → α → α)
    (out : List Nat) :
    ∀ idxs : List Nat,
      (∀ idx ∈ idxs, Tensor.cbiLoop out (a.shape.zip b.shape) idx 0 0 0
        = (specOffset a.shape out idx, specOffset b.shape out idx)) →
      (∀ idx ∈ idxs, specOffset a.shape out idx < a.data.length ∧
        specOffset b.shape out idx < b.data.length) →
      ∃ l, Tensor.broadcastLoop a b f out idxs = .ok (some l) ∧
        l.length = idxs.length ∧
        ∀ k idx, idxs.get? k = some idx →
          ∃ x y, a.data.get? (specOffset a.shape out idx) = some x ∧
            b.data.get? (specOffset b.shape out idx) = some y ∧
            l.get? k = some (f x y) := by
  intro idxs
  induction idxs with
  | nil =>
    intro _ _
    exact ⟨[], rfl, rfl, by intro k idx h; simp at h⟩
  | cons idx rest ih =>
    intro hcbi hbound
    obtain ⟨hsa, hsb⟩ := hbound idx (by simp)
    obtain ⟨l, hloop, hlenl, hpt⟩ := ih
      (fun i hi => hcbi i (by simp [hi]))
      (fun i hi => hbound i (by simp [hi]))
    refine ⟨f (a.data.get ⟨_, hsa⟩) (b.data.get ⟨_, hsb⟩) :: l, ?_, by simpa using hlenl, ?_⟩
    · simp only [Tensor.broadcastLoop, Tensor.calculate_broadcast_indices]
      rw [hcbi idx (by simp)]
      rw [List.get?_eq_get hsa, List.get?_eq_get hsb, hloop]
    · intro k i hk
      cases k with
      | zero =>
        have hi : idx = i := by simpa using hk
        subst hi
        exact ⟨a.data.get ⟨_, hsa⟩, b.data.get ⟨_, hsb⟩,
          List.get?_eq_get hsa, List.get?_eq_get hsb, by simp⟩
      | succ k =>
        have hk' : rest.get? k = some i := by simpa using hk
        obtain ⟨x, y, hx, hy, hl⟩ := hpt k i hk'
        exact ⟨x, y, hx, hy, by simpa using hl⟩

end BroadcastBounds

/-- Full run of `broadcast_op` on equal-rank, broadcast-compatible,
size-consistent operands whose zero axes coincide: it returns a tensor of
the broadcast shape whose every element is resolved via the spec-side
per-operand offsets. -/
lemma broadcast_op_run {α : Type u} (a b : Tensor α) (f : α → α → α)
    (hlen : a.shape.length = b.shape.length)
    (hcb : a.can_broadcast b = true)
    (ha : a.data.length = a.shape.prod)
    (hb : b.data.length = b.shape.prod)
    (hz : ∀ p ∈ a.shape.zip b.shape, (p.1 = 0 ↔ p.2 = 0)) :
    ∃ t, a.broadcast_op b f = .ok (some t) ∧
      t.shape = a.broadcast_shape b ∧
      t.data.length = t.shape.prod ∧
      ∀ idx, idx < t.shape.prod →
        ∃ x y, a.data.get? (specOffset a.shape t.shape idx) = some x ∧
          b.data.get? (specOffset b.shape t.shape idx) = some y ∧
          t.data.get? idx = some (f x y) := by
  have hcompat := can_broadcast_compat a b hlen hcb
  have hms : a.broadcast_shape b = maxShape a.shape b.shape :=
    (broadcast_shape_eq_maxShape a b)
  have hcompat' : ∀ p ∈ b.shape.zip a.shape, p.1 = p.2 ∨ p.1 = 1 ∨ p.2 = 1 := by
    intro p hp
    have := hcompat (p.2, p.1) (mem_zip_swap _ _ _ hp)
    tauto
  have hz' : ∀ p ∈ b.shape.zip a.shape, p.1 = 0 ↔ p.2 = 0 := by
    intro p hp
    have := hz (p.2, p.1) (mem_zip_swap _ _ _ hp)
    tauto
  have hcbi : ∀ idx, idx < (maxShape a.shape b.shape).prod →
      Tensor.cbiLoop (maxShape a.shape b.shape) (a.shape.zip b.shape) idx 0 0 0
        = (specOffset a.shape (maxShape a.shape b.shape) idx,
           specOffset b.shape (maxShape a.shape b.shape) idx) := by
    intro idx hidx
    rw [cbiLoop_eq_cbiAux]
    simp only [Nat.zero_add]
    rw [cbiAux_spec a.shape b.shape idx 0 0 hlen hidx]
    simp
  have hbounds : ∀ idx, idx < (maxShape a.shape b.shape).prod →
      specOffset a.shape (maxShape a.shape b.shape) idx < a.data.length ∧
      specOffset b.shape (maxShape a.shape b.shape) idx < b.data.length := by
    intro idx hidx
    have hpos : 0 < (maxShape a.shape b.shape).prod :=
      Nat.lt_of_le_of_lt (Nat.zero_le idx) hidx
    constructor
    · rw [ha]
      exact specOffset_lt a.shape b.shape idx hlen hcompat hz hpos
    · rw [hb]
      have hsw := specOffset_lt b.shape a.shape idx hlen.symm hcompat' hz'
        (by rw [maxShape_comm]; exact hpos)
      rw [maxShape_comm b.shape a.shape] at hsw
      exact hsw
  obtain ⟨l, hloop, hlenl, hpt⟩ := broadcastLoop_ok a b f (maxShape a.shape b.shape)
    (List.range (maxShape a.shape b.shape).prod)
    (fun idx hidx => hcbi idx (List.mem_range.mp hidx))
    (fun idx hidx => hbounds idx (List.mem_range.mp hidx))
  refine ⟨⟨l, maxShape a.shape b.shape⟩, ?_, hms.symm, ?_, ?_⟩
  · simp only [Tensor.broadcast_op, hms]
    rw [hloop]
  · simpa using hlenl
  · intro idx hidx
    obtain ⟨x, y, hx, hy, hl⟩ := hpt idx idx (List.get?_range hidx)
    exact ⟨x, y, hx, hy, hl⟩

/-- Counterexample to claim C1 as stated: the well-formed, equal-rank,
`can_broadcast`-compatible pair of shapes `[0]` (empty data) and `[1]` makes
`broadcast_op` panic — `broadcast_shape` maps the axis pair `(0, 1)` to `1`
and the loop then reads index `0` of the empty data buffer — so no tensor
of shape `broadcast_shape(a, b)` is returned. -/
theorem broadcast_op_zero_dim_counterexample :
    Tensor.can_broadcast (⟨[], [0]⟩ : Tensor Int) ⟨[5], [1]⟩ = true ∧
    (⟨[], [0]⟩ : Tensor Int).shape.length = (⟨[5], [1]⟩ : Tensor Int).shape.length ∧
    (⟨[], [0]⟩ : Tensor Int).data.length = (⟨[], [0]⟩ : Tensor Int).shape.prod ∧
    (⟨[5], [1]⟩ : Tensor Int).data.length = (⟨[5], [1]⟩ : Tensor Int).shape.prod ∧
    Tensor.broadcast_op (⟨[], [0]⟩ : Tensor Int) ⟨[5], [1]⟩ (· + ·) = .panics := by
  decide

/-- Claim C1 amended: for equal-rank tensors satisfying `can_broadcast` and
the size invariant, and on whose every axis one operand's size is zero iff
the other's is (excluding the panicking `0`-vs-`1` axes), `broadcast_op`
returns a tensor of shape `broadcast_shape(a, b)` whose element at every
linear output index `idx` is `f` of the operand elements at the offsets
obtained by decomposing `idx` along the output strides, zeroing the
coordinate of a size-1 operand axis and accumulating with the operand's own
strides; in particular element-wise add of shapes `[2,2]` (data
`[1,2,3,4]`) and `[1,2]` (data `[10,20]`) yields shape `[2,2]` and data
`[11,22,13,24]`. -/
theorem broadcast_op_elementwise_correct :
    (∀ {α : Type} (a b : Tensor α) (f : α → α → α),
      a.shape.length = b.shape.length →
      a.can_broadcast b = true →
      a.data.length = a.shape.prod →
      b.data.length = b.shape.prod →
      (∀ p ∈ a.shape.zip b.shape, (p.1 = 0 ↔ p.2 = 0)) →
      ∃ t, a.broadcast_op b f = .ok (some t) ∧
        t.shape = a.broadcast_shape b ∧
        ∀ idx, idx < t.shape.prod →
          ∃ x y, a.data.get? (specOffset a.shape t.shape idx) = some x ∧
            b.data.get? (specOffset b.shape t.shape idx) = some y ∧
            t.data.get? idx = some (f x y)) ∧
    Tensor.broadcast_op (⟨[1,2,3,4], [2,2]⟩ : Tensor Int) ⟨[10,20], [1,2]⟩ (· + ·)
      = .ok (some ⟨[11,22,13,24], [2,2]⟩) := by
  constructor
  · intro α a b f hlen hcb ha hb hz
    obtain ⟨t, h1, h2, _h3, h4⟩ := broadcast_op_run a b f hlen hcb ha hb hz
    exact ⟨t, h1, h2, h4⟩
  · decide

/-- Witness for the amended C1 at the spec's add example. -/
theorem broadcast_op_elementwise_correct_witness :
    ∃ t : Tensor Int,
      Tensor.broadcast_op (⟨[1,2,3,4], [2,2]⟩ : Tensor Int) ⟨[10,20], [1,2]⟩ (· + ·)
        = .ok (some t) ∧
      t.shape = Tensor.broadcast_shape (⟨[1,2,3,4], [2,2]⟩ : Tensor Int) ⟨[10,20], [1,2]⟩ ∧
      ∀ idx, idx < t.shape.prod →
        ∃ x y, ([1,2,3,4] : List Int).get? (specOffset [2,2] t.shape idx) = some x ∧
          ([10,20] : List Int).get? (specOffset [1,2] t.shape idx) = some y ∧
          t.data.get? idx = some (x + y) :=
  broadcast_op_elementwise_correct.1 (⟨[1,2,3,4], [2,2]⟩ : Tensor Int) ⟨[10,20], [1,2]⟩
    (· + ·) rfl (by decide) (by decide) (by decide) (by decide)

/-- Counterexample to claim C10 as stated: the well-formed, equal-rank,
`can_broadcast`-compatible pair of shapes `[1]` and `[0]` makes
`broadcast_op` panic instead of returning a tensor, so no size-invariant
output is produced. -/
theorem broadcast_size_invariant_counterexample :
    Tensor.can_broadcast (⟨[7], [1]⟩ : Tensor Int) ⟨[], [0]⟩ = true ∧
    (⟨[7], [1]⟩ : Tensor Int).shape.length = (⟨[], [0]⟩ : Tensor Int).shape.length ∧
    (⟨[7], [1]⟩ : Tensor Int).data.length = (⟨[7], [1]⟩ : Tensor Int).shape.prod ∧
    (⟨[], [0]⟩ : Tensor Int).data.length = (⟨[], [0]⟩ : Tensor Int).shape.prod ∧
    Tensor.broadcast_op (⟨[7], [1]⟩ : Tensor Int) ⟨[], [0]⟩ (· * ·) = .panics := by
  decide

/-- Claim C10 amended: for equal-rank tensors satisfying `can_broadcast`
and the size invariant, and on whose every axis one operand's size is zero
iff the other's is, `broadcast_op` returns a tensor with exactly
`product(broadcast_shape(a, b))` elements, preserving
`data.len() == product(shape)`; `into_broadcast_op` computes the very same
function. -/
theorem broadcast_op_preserves_size_invariant :
    ∀ {α : Type} (a b : Tensor α) (f : α → α → α),
      a.shape.length = b.shape.length →
      a.can_broadcast b = true →
      a.data.length = a.shape.prod →
      b.data.length = b.shape.prod →
      (∀ p ∈ a.shape.zip b.shape, (p.1 = 0 ↔ p.2 = 0)) →
      (∃ t, a.broadcast_op b f = .ok (some t) ∧
        t.shape = a.broadcast_shape b ∧
        t.data.length = t.shape.prod) ∧
      a.into_broadcast_op b f = a.broadcast_op b f := by
  intro α a b f hlen hcb ha hb hz
  refine ⟨?_, rfl⟩
  obtain ⟨t, h1, h2, h3, _⟩ := broadcast_op_run a b f hlen hcb ha hb hz
  exact ⟨t, h1, h2, h3⟩

/-- Witness for the amended C10 on two well-formed `[2,2]` tensors. -/
theorem broadcast_op_preserves_size_invariant_witness :
    (∃ t : Tensor Int,
      Tensor.broadcast_op (⟨[1,2,3,4], [2,2]⟩ : Tensor Int) ⟨[10,20,30,40], [2,2]⟩ (· + ·)
        = .ok (some t) ∧
      t.shape = Tensor.broadcast_shape (⟨[1,2,3,4], [2,2]⟩ : Tensor Int) ⟨[10,20,30,40], [2,2]⟩ ∧
      t.data.length = t.shape.prod) ∧
    Tensor.into_broadcast_op (⟨[1,2,3,4], [2,2]⟩ : Tensor Int) ⟨[10,20,30,40], [2,2]⟩ (· + ·)
      = Tensor.broadcast_op (⟨[1,2,3,4], [2,2]⟩ : Tensor Int) ⟨[10,20,30,40], [2,2]⟩ (· + ·) :=
  broadcast_op_preserves_size_invariant (⟨[1,2,3,4], [2,2]⟩ : Tensor Int)
    ⟨[10,20,30,40], [2,2]⟩ (· + ·) rfl (by decide) (by decide) (by decide) (by decide)
